import Mathlib

/-!
Verification of the scan/filter/preview core of the `list-files-folder` tool.

The Rust sources are embedded shallowly:
* `src/file_scanner.rs` — `FileInfo`, `is_today`, `scan_folder` / `scan_folder_internal`
  (the filesystem is abstracted as a tree of nodes whose directory reads and
  per-entry metadata calls may fail);
* `src/app.rs` — the `FileListerApp` state and the methods `compute_duplicates`,
  `apply_filter`, `load_hover_preview`, `check_image_loads`,
  `scan_selected_folder`, `execute_bulk_delete` (UI rendering is out of scope;
  channels are modelled by numeric identifiers handed out by a counter, and a
  poll reads only the channel currently held by the state);
* `src/csv_export.rs` — `export_to_csv`, modelled at the level of the produced
  character stream, together with a standard RFC‑4180 reader used to state the
  round-trip property.

Machine integers are modelled by `Nat`/`Int` (`u64` casts reduce modulo `2^64`
where the code performs them); wall-clock instants are `Nat` seconds.
-/

/-- ASCII lowercasing of a string, modelling Rust's `to_lowercase` on the
ASCII alphabets used by the app (extensions, filter text). -/
def lowerStr (s : String) : String := String.mk (s.data.map Char.toLower)

/-- Does `l` start with `p`? (helper for the substring test). -/
def strStartsWith : List Char → List Char → Bool
  | _, [] => true
  | [], _ :: _ => false
  | a :: as, b :: bs => a = b && strStartsWith as bs

/-- Substring containment on character lists, modelling Rust's
`str::contains` for plain (non-pattern) needles. -/
def strContainsSub : List Char → List Char → Bool
  | [], pat => pat.isEmpty
  | hay@(_ :: t), pat => strStartsWith hay pat || strContainsSub t pat

/-- `containsStr hay pat` models `hay.contains(&pat)` in Rust. -/
def containsStr (hay pat : String) : Bool := strContainsSub hay.data pat.data

/-- One scanned filesystem entry (`FileInfo` in `src/file_scanner.rs`). -/
structure FileInfo where
  name : String
  extension : String
  full_name : String
  relative_path : String
  absolute_path : String
  file_size : Nat
  modified_timestamp : Int
deriving DecidableEq, Repr

/-- Decoded preview pixels (`ImagePreviewData` in `src/app.rs`); the texture
created from it on receipt is identified with the data itself. -/
structure ImagePreviewData where
  pixels : List Nat
  width : Nat
  height : Nat
deriving DecidableEq, Repr

/-- `is_today` from `src/file_scanner.rs`.  `nowSecs` is
`SystemTime::now().duration_since(UNIX_EPOCH)` in whole seconds (the `Err`
branch of that call cannot occur for a post-epoch clock and is not modelled).
The `timestamp as u64` cast reduces the `i64` timestamp modulo `2^64`. -/
def is_today (timestamp : Int) (nowSecs : Nat) : Bool :=
  let fileSecs := (timestamp % (18446744073709551616 : Int)).toNat
  let todayStart := nowSecs - nowSecs % 86400
  decide (todayStart ≤ fileSecs) && decide (fileSecs < todayStart + 86400)

/-- Errors of the directory walk: `ErrorKind::NotADirectory` for a non-directory
root, and any IO error raised while reading a directory. -/
inductive ScanError where
  | notADirectory : ScanError
  | io : String → ScanError
deriving DecidableEq, Repr

/-- Abstract filesystem node.  A file carries `some (size, mtime)` when
`entry.metadata()` succeeds and `none` when it fails; a directory carries
`some children` when `fs::read_dir` succeeds and `none` when it fails. -/
inductive Node where
  | file : Option (Nat × Int) → Node
  | dir : Option (List (String × Node)) → Node

/-- Split a file name into `(file_stem, extension)` following
`Path::file_stem` / `Path::extension`: the split is at the last `.` that is
not the leading character; without such a dot the extension is empty
(`unwrap_or_default`). -/
def splitName (s : String) : String × String :=
  let cs := s.data
  let idxs := (List.range cs.length).filter fun i =>
    decide (0 < i) && decide (cs.get? i = some '.')
  match idxs.getLast? with
  | some i => (String.mk (cs.take i), String.mk (cs.drop (i + 1)))
  | none => (s, "")

/-- Join two path components with `/` (the separator used for the
platform-normalised relative paths). -/
def joinPath (a b : String) : String := if a = "" then b else a ++ "/" ++ b

/-- Build the `FileInfo` record pushed by `scan_folder_internal` for a file
entry named `n` in the directory `relDir` (relative to the scan root
`basePath`).  A failed metadata call (`meta = none`) defaults size and
timestamp to zero. -/
def mkFileInfo (basePath relDir n : String) (meta : Option (Nat × Int)) : FileInfo :=
  let rel := joinPath relDir n
  { name := (splitName n).1
    extension := (splitName n).2
    full_name := n
    relative_path := rel
    absolute_path := joinPath basePath rel
    file_size := (meta.map Prod.fst).getD 0
    modified_timestamp := (meta.map Prod.snd).getD 0 }

/-- The entry loop of `scan_folder_internal`: files are pushed in directory
order, subdirectories are descended into in place when `recursive` is set,
and a failed directory read aborts the whole walk. -/
def scan_folder_internal (basePath relDir : String) (recursive : Bool) :
    List (String × Node) → Except ScanError (List FileInfo)
  | [] => .ok []
  | (n, Node.file meta) :: rest =>
    match scan_folder_internal basePath relDir recursive rest with
    | .error e => .error e
    | .ok rs => .ok (mkFileInfo basePath relDir n meta :: rs)
  | (_, Node.dir none) :: rest =>
    if recursive then .error (.io "read_dir failed")
    else scan_folder_internal basePath relDir recursive rest
  | (n, Node.dir (some sub)) :: rest =>
    if recursive then
      match scan_folder_internal basePath (joinPath relDir n) recursive sub with
      | .error e => .error e
      | .ok subRs =>
        match scan_folder_internal basePath relDir recursive rest with
        | .error e => .error e
        | .ok rs => .ok (subRs ++ rs)
    else scan_folder_internal basePath relDir recursive rest

/-- The comparison used by `scan_folder`'s final
`sort_by(relative_path.to_lowercase())`. -/
def relPathLe (a b : FileInfo) : Prop :=
  lowerStr a.relative_path ≤ lowerStr b.relative_path

instance : DecidableRel relPathLe := fun a b =>
  inferInstanceAs (Decidable (lowerStr a.relative_path ≤ lowerStr b.relative_path))

/-- `scan_folder` from `src/file_scanner.rs`: rejects a non-directory root,
walks the tree, and stably sorts the records by lowercased relative path
(Rust's `sort_by` is a stable sort; `insertionSort` is the stable sort of
the same comparator). -/
def scan_folder (basePath : String) (root : Node) (recursive : Bool) :
    Except ScanError (List FileInfo) :=
  match root with
  | .file _ => .error .notADirectory
  | .dir none => .error (.io "read_dir failed")
  | .dir (some cs) =>
    match scan_folder_internal basePath "" recursive cs with
    | .error e => .error e
    | .ok files => .ok (List.insertionSort relPathLe files)

/-- The fields of `FileListerApp` relevant to the scan/filter/preview core.
Channels are identified by numbers drawn from the `next_chan` counter (a
modelling device for `mpsc::channel()`); maps are modelled as functions with
`HashMap`-lookup semantics (absent keys read as the default). -/
structure AppState where
  selected_folder : Option String
  files : List FileInfo
  filtered_files : List FileInfo
  status_message : String
  error_message : Option String
  recursive : Bool
  filter_text : String
  duplicate_counts : String → Nat
  show_duplicates_only : Bool
  show_today_only : Bool
  selected_files : List Nat
  show_delete_confirm : Bool
  pending_delete_paths : List (String × String)
  scan_receiver : Option Nat
  is_scanning : Bool
  image_cache : String → Option ImagePreviewData
  image_receiver : Option Nat
  image_loading_path : Option String
  image_loading_start : Option Nat
  next_chan : Nat

/-- The `Default` impl for `FileListerApp`. -/
def default_app : AppState :=
  { selected_folder := none
    files := []
    filtered_files := []
    status_message := "Select a folder to scan"
    error_message := none
    recursive := false
    filter_text := ""
    duplicate_counts := fun _ => 0
    show_duplicates_only := false
    show_today_only := false
    selected_files := []
    show_delete_confirm := false
    pending_delete_paths := []
    scan_receiver := none
    is_scanning := false
    image_cache := fun _ => none
    image_receiver := none
    image_loading_path := none
    image_loading_start := none
    next_chan := 0 }

/-- `compute_duplicates`: fold over ALL files, incrementing the entry of each
record's `full_name` (lookups of absent keys read 0). -/
def compute_duplicates (files : List FileInfo) : String → Nat :=
  files.foldl (fun m f => fun k => if k = f.full_name then m k + 1 else m k) fun _ => 0

/-- `is_duplicate`: the stored count when it exceeds 1. -/
def is_duplicate (counts : String → Nat) (full_name : String) : Option Nat :=
  if counts full_name > 1 then some (counts full_name) else none

/-- The text-filter stage of `apply_filter`: case-insensitive substring match
against name, extension, relative path or full name; an empty filter passes
everything. -/
def textFiltered (s : AppState) : List FileInfo :=
  let filter := lowerStr s.filter_text
  if filter = "" then s.files
  else s.files.filter fun f =>
    containsStr (lowerStr f.name) filter ||
    containsStr (lowerStr f.extension) filter ||
    containsStr (lowerStr f.relative_path) filter ||
    containsStr (lowerStr f.full_name) filter

/-- The duplicates-only stage of `apply_filter`, applied to the text-filter
output using the counts just recomputed over ALL files. -/
def dupFiltered (s : AppState) : List FileInfo :=
  if s.show_duplicates_only then
    (textFiltered s).filter fun f =>
      (is_duplicate (compute_duplicates s.files) f.full_name).isSome
  else textFiltered s

/-- `apply_filter`: clears the selection, recomputes `duplicate_counts` over
the unfiltered snapshot, then pipes the snapshot through the text,
duplicates-only and today-only stages.  `nowSecs` is the wall clock consulted
by `is_today`. -/
def apply_filter (nowSecs : Nat) (s : AppState) : AppState :=
  let ff :=
    if s.show_today_only then
      (dupFiltered s).filter fun f => is_today f.modified_timestamp nowSecs
    else dupFiltered s
  { s with
    selected_files := []
    duplicate_counts := compute_duplicates s.files
    filtered_files := ff }

/-- Readiness of the optional extraction backends (the memoised capability
probes `FFMPEG_AVAILABLE` / `PDFIUM_AVAILABLE`). -/
structure Env where
  ffmpeg_ready : Bool
  pdfium_ready : Bool

/-- `is_image_file` from `src/app.rs`. -/
def is_image_file (ext : String) : Bool :=
  ["jpg", "jpeg", "png", "gif", "bmp", "ico", "webp"].contains (lowerStr ext)

/-- `is_video_file` from `src/app.rs`. -/
def is_video_file (ext : String) : Bool :=
  ["mp4", "avi", "mkv", "mov", "wmv", "flv", "webm", "m4v", "mpeg", "mpg", "3gp"].contains
    (lowerStr ext)

/-- `is_pdf_file` from `src/app.rs`. -/
def is_pdf_file (ext : String) : Bool := lowerStr ext = "pdf"

/-- `is_previewable` from `src/app.rs`. -/
def is_previewable (ext : String) : Bool :=
  is_image_file ext || is_video_file ext || is_pdf_file ext

/-- `load_hover_preview`: no-op on an out-of-range index, a non-previewable
extension, a cached path, a path already loading, or a not-ready backend;
otherwise it installs a fresh channel as `image_receiver` and records the
loading path and start time (`Instant::now()` is the `now` argument).  The
spawned extraction thread itself is outside the state. -/
def load_hover_preview (env : Env) (s : AppState) (idx : Nat) (now : Nat) : AppState :=
  match s.filtered_files.get? idx with
  | none => s
  | some file =>
    if !is_previewable file.extension then s
    else if (s.image_cache file.absolute_path).isSome then s
    else if s.image_loading_path = some file.absolute_path then s
    else if is_video_file file.extension && !env.ffmpeg_ready then s
    else if is_pdf_file file.extension && !env.pdfium_ready then s
    else
      { s with
        image_receiver := some s.next_chan
        image_loading_path := some file.absolute_path
        image_loading_start := some now
        next_chan := s.next_chan + 1 }

/-- `HashMap::insert` on the preview cache. -/
def cacheInsert (m : String → Option ImagePreviewData) (k : String)
    (v : ImagePreviewData) : String → Option ImagePreviewData :=
  fun k' => if k' = k then some v else m k'

/-- The receive half of `check_image_loads`: `try_recv` on the currently held
receiver (`recv c` is what a non-blocking read of channel `c` returns); on a
message the texture is cached under the message's path and the loading slot
is cleared. -/
def checkRecvPart (s : AppState)
    (recv : Nat → Option (String × ImagePreviewData)) : AppState :=
  match s.image_receiver with
  | none => s
  | some c =>
    match recv c with
    | none => s
    | some (path, data) =>
      { s with
        image_cache := cacheInsert s.image_cache path data
        image_loading_path := none
        image_receiver := none
        image_loading_start := none }

/-- `check_image_loads`: the timeout test runs first — strictly more than 10
seconds after the recorded start the slot is cleared (dropping the receiver)
and the function returns; otherwise the receiver is polled. -/
def check_image_loads (s : AppState) (now : Nat)
    (recv : Nat → Option (String × ImagePreviewData)) : AppState :=
  match s.image_loading_start with
  | some start =>
    if now - start > 10 then
      { s with
        image_loading_path := none
        image_receiver := none
        image_loading_start := none }
    else checkRecvPart s recv
  | none => checkRecvPart s recv

/-- `scan_selected_folder`: always clears the error message, the selection and
the preview cache; when a folder is selected it installs a fresh scan channel,
marks scanning in progress and sets the status to `Scanning...`.  The preview
slot fields are not touched. -/
def scan_selected_folder (s : AppState) : AppState :=
  let s1 := { s with
    error_message := none
    selected_files := []
    image_cache := fun _ => none }
  match s1.selected_folder with
  | none => s1
  | some _ =>
    { s1 with
      scan_receiver := some s1.next_chan
      next_chan := s1.next_chan + 1
      is_scanning := true
      status_message := "Scanning..." }

/-- The deletion loop of `execute_bulk_delete`.  `removeFile p` is the outcome
of `fs::remove_file(p)`: `none` on success, `some msg` on failure with the
error's display text.  Returns `(deleted_count, failed_count, errors)` with
the per-item error strings in iteration order. -/
def bulkDeleteLoop (removeFile : String → Option String) :
    List (String × String) → Nat × Nat × List String
  | [] => (0, 0, [])
  | (path, name) :: rest =>
    let r := bulkDeleteLoop removeFile rest
    match removeFile path with
    | none => (r.1 + 1, r.2.1, r.2.2)
    | some e => (r.1, r.2.1 + 1, (name ++ ": " ++ e) :: r.2.2)

/-- `execute_bulk_delete`: attempt every pending path, set the status report
and joined error message, clear the pending list, the confirmation flag and
the selection, then call `scan_selected_folder`. -/
def execute_bulk_delete (removeFile : String → Option String) (s : AppState) : AppState :=
  let r := bulkDeleteLoop removeFile s.pending_delete_paths
  let s1 :=
    if r.2.1 = 0 then
      { s with
        status_message := "Deleted " ++ toString r.1 ++ " files"
        error_message := none }
    else
      { s with
        status_message :=
          "Deleted " ++ toString r.1 ++ " files, " ++ toString r.2.1 ++ " failed"
        error_message := some (String.intercalate "; " r.2.2) }
  scan_selected_folder
    { s1 with
      pending_delete_paths := []
      show_delete_confirm := false
      selected_files := [] }

/-- A field needs quoting when it contains a quote, the delimiter, or a line
break (csv-core's `QuoteStyle::Necessary` for multi-field records). -/
def needsQuote (f : List Char) : Bool :=
  f.any fun c => c = '"' || c = ',' || c = '\n' || c = '\r'

/-- Double every quote inside a quoted field. -/
def escapeQuotes : List Char → List Char
  | [] => []
  | c :: rest =>
    if c = '"' then '"' :: '"' :: escapeQuotes rest else c :: escapeQuotes rest

/-- Serialise one CSV field. -/
def writeField (f : List Char) : List Char :=
  if needsQuote f then '"' :: (escapeQuotes f ++ ['"']) else f

/-- Fields of one record joined by the `,` delimiter. -/
def joinFields : List (List Char) → List Char
  | [] => []
  | [f] => writeField f
  | f :: rest => writeField f ++ ',' :: joinFields rest

/-- One serialised record, ended by the writer's `\n` terminator. -/
def writeRecordChars (fields : List (List Char)) : List Char :=
  joinFields fields ++ ['\n']

/-- A sequence of serialised records. -/
def writeAllRecords (recs : List (List (List Char))) : List Char :=
  (recs.map writeRecordChars).flatten

/-- The header row written by `export_to_csv`. -/
def csvHeader : List (List Char) :=
  ["File Name".data, "Extension".data, "Size (bytes)".data,
   "Relative Path".data, "Full Path".data]

/-- The CSV row written for one record: name, extension, size rendered in
decimal, relative path, absolute path. -/
def csvRecordOf (f : FileInfo) : List (List Char) :=
  [f.name.data, f.extension.data, (toString f.file_size).data,
   f.relative_path.data, f.absolute_path.data]

/-- `export_to_csv` from `src/csv_export.rs`, as the character stream written
to the file: the UTF-8 byte-order mark (U+FEFF once decoded), the header row,
then one row per record in order. -/
def export_to_csv (files : List FileInfo) : List Char :=
  '﻿' :: (writeRecordChars csvHeader ++
    (files.map fun f => writeRecordChars (csvRecordOf f)).flatten)

/-- Reader: body of a quoted field.  `acc` holds the consumed characters in
reverse; a doubled quote is an escaped quote, a single quote closes the
field. -/
def parseQuotedAux : List Char → List Char → List Char × List Char
  | [], acc => (acc.reverse, [])
  | [c], acc => if c = '"' then (acc.reverse, []) else ((c :: acc).reverse, [])
  | c :: d :: rest, acc =>
    if c = '"' then
      if d = '"' then parseQuotedAux rest ('"' :: acc)
      else (acc.reverse, d :: rest)
    else parseQuotedAux (d :: rest) (c :: acc)

/-- Reader: an unquoted field extends to the next delimiter, terminator or
end of input. -/
def parseUnquoted : List Char → List Char × List Char
  | [] => ([], [])
  | c :: rest =>
    if c = ',' || c = '\n' then ([], c :: rest)
    else
      let p := parseUnquoted rest
      (c :: p.1, p.2)

/-- Reader: one field, quoted iff it starts with a quote. -/
def parseField : List Char → List Char × List Char
  | [] => ([], [])
  | c :: rest => if c = '"' then parseQuotedAux rest [] else parseUnquoted (c :: rest)

/-- Reader: one record — fields separated by `,`, ended by `\n` or end of
input.  The fuel bounds the number of fields and exceeds it on every actual
call. -/
def parseLineF : Nat → List Char → List (List Char) × List Char
  | 0, l => ([], l)
  | fuel + 1, l =>
    let p := parseField l
    match p.2 with
    | ',' :: r =>
      let q := parseLineF fuel r
      (p.1 :: q.1, q.2)
    | '\n' :: r => ([p.1], r)
    | _ => ([p.1], [])

/-- Reader: all records of the input.  The fuel bounds the number of records
and exceeds it on every actual call. -/
def parseRecsF : Nat → List Char → List (List (List Char))
  | 0, _ => []
  | _ + 1, [] => []
  | fuel + 1, l =>
    let q := parseLineF (l.length + 1) l
    q.1 :: parseRecsF fuel q.2

/-- Reader: parse a whole CSV document. -/
def parseCsv (l : List Char) : List (List (List Char)) := parseRecsF (l.length + 1) l

/-- Reader: strip a leading byte-order mark, if present. -/
def stripBom : List Char → List Char
  | '﻿' :: rest => rest
  | l => l

/-- A standard CSV+BOM reader: strip the BOM, then parse. -/
def readCsvBom (l : List Char) : List (List (List Char)) := parseCsv (stripBom l)

/-- SPEC-SIDE (C2): the process-local midnight preceding `nowSecs`, for a
process whose local time zone is `tzOffset` seconds ahead of UTC — written
from the spec's words "the boundary is the process's local midnight". -/
def specLocalDayStart (nowSecs : Nat) (tzOffset : Int) : Int :=
  (nowSecs : Int) - (((nowSecs : Int) + tzOffset) % 86400)

/-- SPEC-SIDE (C2): the claim's keep-predicate for the today filter —
`modified_timestamp ∈ [start_of_local_day, start_of_local_day + 86400)`. -/
def specTodayKeep (timestamp : Int) (nowSecs : Nat) (tzOffset : Int) : Bool :=
  decide (specLocalDayStart nowSecs tzOffset ≤ timestamp) &&
  decide (timestamp < specLocalDayStart nowSecs tzOffset + 86400)

/-- `exceptOk r` is true exactly on `Except.ok`. -/
def exceptOk : Except ScanError (List FileInfo) → Bool
  | .ok _ => true
  | .error _ => false

/-- Does the walk over these directory entries hit a failing directory read?
In non-recursive mode subdirectories are never read, so only reads the walk
actually performs are counted. -/
def dirReadFails (recursive : Bool) : List (String × Node) → Bool
  | [] => false
  | (_, Node.file _) :: rest => dirReadFails recursive rest
  | (_, Node.dir none) :: rest => recursive || dirReadFails recursive rest
  | (_, Node.dir (some sub)) :: rest =>
    if recursive then dirReadFails recursive sub || dirReadFails recursive rest
    else dirReadFails recursive rest

/-- `Path::is_dir` on the abstract root. -/
def rootIsDir : Node → Bool
  | Node.file _ => false
  | Node.dir _ => true

/-- Does the walk starting at this root hit a failing directory read
(including the read of the root itself)? -/
def rootReadFails (recursive : Bool) : Node → Bool
  | Node.file _ => false
  | Node.dir none => true
  | Node.dir (some cs) => dirReadFails recursive cs

theorem compute_duplicates_foldl (files : List FileInfo) (m : String → Nat) (k : String) :
    (files.foldl (fun m f => fun k' => if k' = f.full_name then m k' + 1 else m k') m) k
      = m k + files.countP (fun f => decide (f.full_name = k)) := by
  induction files generalizing m with
  | nil => simp
  | cons f t ih =>
    simp only [List.foldl_cons, List.countP_cons, ih]
    by_cases h : k = f.full_name
    · simp [h]
      omega
    · have h' : ¬ f.full_name = k := fun hc => h hc.symm
      simp [h, h']

theorem compute_duplicates_counts (files : List FileInfo) (k : String) :
    compute_duplicates files k = files.countP (fun f => decide (f.full_name = k)) := by
  simpa using compute_duplicates_foldl files (fun _ => 0) k

/-- C1: for every snapshot, `duplicate_counts` (as recomputed by
`apply_filter`) assigns to each `full_name` — compared case-sensitively by
string equality — its number of occurrences in the whole unfiltered `files`
list, and re-running `apply_filter` after changing the text filter, the
duplicates-only toggle or the today-only toggle (in any combination, at any
wall-clock time) leaves the map unchanged. -/
theorem C1_duplicate_counts_invariant (now now2 : Nat) (s : AppState)
    (k txt : String) (b1 b2 : Bool) :
    (apply_filter now s).duplicate_counts k
        = s.files.countP (fun f => decide (f.full_name = k))
    ∧ (apply_filter now2
        { apply_filter now s with
          filter_text := txt
          show_duplicates_only := b1
          show_today_only := b2 }).duplicate_counts
      = (apply_filter now s).duplicate_counts := by
  refine ⟨?_, ?_⟩
  · simpa [apply_filter] using compute_duplicates_counts s.files k
  · rfl

/-- C8: a preview request for a path that is already in the cache changes
nothing at all: no extraction starts, the loading slot keeps its value, and
the cached pixel buffer for the path is untouched. -/
theorem C8_cached_request_noop (env : Env) (s : AppState) (idx now : Nat) (f : FileInfo)
    (hidx : s.filtered_files.get? idx = some f)
    (hcache : (s.image_cache f.absolute_path).isSome = true) :
    load_hover_preview env s idx now = s := by
  unfold load_hover_preview
  rw [hidx]
  by_cases hp : is_previewable f.extension
  · simp [hp, hcache]
  · simp [hp]

/-- A decoded preview used by the concrete witnesses. -/
def dPix : ImagePreviewData := ⟨[0, 1, 2, 3], 1, 1⟩

/-- A previewable (image) record used by the concrete witnesses. -/
def pngFile : FileInfo :=
  ⟨"p", "png", "p.png", "p.png", "/r/p.png", 1, 0⟩

/-- Both extraction backends ready. -/
def envBoth : Env := ⟨true, true⟩

/-- A state whose preview cache already holds `pngFile`'s path. -/
def sCached : AppState :=
  { default_app with
    filtered_files := [pngFile]
    image_cache := fun k => if k = "/r/p.png" then some dPix else none }

theorem C8_cached_request_noop_witness :
    load_hover_preview envBoth sCached 0 7 = sCached :=
  C8_cached_request_noop envBoth sCached 0 7 pngFile rfl rfl

/-- C5: while a load is `Loading`, once strictly more than 10 seconds have
passed since its recorded start, the next `check_image_loads` clears the
loading path, the receiver and the start time, leaves the preview cache
untouched, and every later poll is a complete no-op (so a late result can
never be inserted). -/
theorem C5_timeout_clears_slot (s : AppState) (now start : Nat)
    (recv : Nat → Option (String × ImagePreviewData))
    (hstart : s.image_loading_start = some start)
    (htimeout : now - start > 10) :
    (check_image_loads s now recv).image_loading_path = none
    ∧ (check_image_loads s now recv).image_receiver = none
    ∧ (check_image_loads s now recv).image_loading_start = none
    ∧ (check_image_loads s now recv).image_cache = s.image_cache
    ∧ ∀ now2 recv2,
        check_image_loads (check_image_loads s now recv) now2 recv2
          = check_image_loads s now recv := by
  have hc : check_image_loads s now recv
      = { s with
          image_loading_path := none
          image_receiver := none
          image_loading_start := none } := by
    unfold check_image_loads
    rw [hstart]
    simp [htimeout]
  refine ⟨by rw [hc], by rw [hc], by rw [hc], by rw [hc], ?_⟩
  intro now2 recv2
  rw [hc]
  unfold check_image_loads checkRecvPart
  rfl

/-- A state 11 seconds into a pending video-preview load whose backend never
answers. -/
def sStuck : AppState :=
  { default_app with
    image_loading_path := some "/r/v.mp4"
    image_receiver := some 0
    image_loading_start := some 0
    next_chan := 1 }

/-- The channel environment in which no message ever arrives. -/
def recvNone : Nat → Option (String × ImagePreviewData) := fun _ => none

/-- The channel environment in which channel 0 holds a (late) result. -/
def recvLate : Nat → Option (String × ImagePreviewData) :=
  fun c => if c = 0 then some ("/r/v.mp4", dPix) else none

theorem C5_timeout_clears_slot_witness :
    (check_image_loads sStuck 11 recvNone).image_receiver = none
    ∧ (check_image_loads sStuck 11 recvNone).image_cache = sStuck.image_cache
    ∧ check_image_loads (check_image_loads sStuck 11 recvNone) 12 recvLate
        = check_image_loads sStuck 11 recvNone :=
  ⟨(C5_timeout_clears_slot sStuck 11 0 recvNone rfl (by decide)).2.1,
   (C5_timeout_clears_slot sStuck 11 0 recvNone rfl (by decide)).2.2.2.1,
   (C5_timeout_clears_slot sStuck 11 0 recvNone rfl (by decide)).2.2.2.2 12 recvLate⟩

/-- A state in which a load for the different path `/r/q.png` is in flight
while `pngFile` (path `/r/p.png`) is hovered. -/
def sInFlight : AppState :=
  { default_app with
    filtered_files := [pngFile]
    image_loading_path := some "/r/q.png"
    image_receiver := some 0
    image_loading_start := some 0
    next_chan := 1 }

/-- C3 counterexample: with a load for `/r/q.png` in flight, a request for the
different previewable path `/r/p.png` is NOT dropped — `load_hover_preview`
starts a new load (new loading path, new receiver on the fresh channel 1, new
start time), so the claim "no new load starts; the in-flight load continues"
is false at this input. -/
theorem C3_cex :
    sInFlight.image_loading_path = some "/r/q.png"
    ∧ sInFlight.image_receiver = some 0
    ∧ (load_hover_preview envBoth sInFlight 0 5).image_loading_path = some "/r/p.png"
    ∧ (load_hover_preview envBoth sInFlight 0 5).image_receiver = some 1
    ∧ (load_hover_preview envBoth sInFlight 0 5).image_loading_start = some 5 := by
  refine ⟨rfl, rfl, ?_, ?_, ?_⟩ <;> rfl

theorem load_hover_preview_replaces (env : Env) (s : AppState) (idx now : Nat)
    (f : FileInfo) (q : String)
    (hidx : s.filtered_files.get? idx = some f)
    (hprev : is_previewable f.extension = true)
    (hcache : s.image_cache f.absolute_path = none)
    (hload : s.image_loading_path = some q)
    (hne : q ≠ f.absolute_path)
    (hv : is_video_file f.extension = true → env.ffmpeg_ready = true)
    (hp : is_pdf_file f.extension = true → env.pdfium_ready = true) :
    load_hover_preview env s idx now
      = { s with
          image_receiver := some s.next_chan
          image_loading_path := some f.absolute_path
          image_loading_start := some now
          next_chan := s.next_chan + 1 } := by
  have hload' : ¬ s.image_loading_path = some f.absolute_path := by
    rw [hload]
    intro hcon
    exact hne (Option.some_injective _ hcon)
  have hv' : (is_video_file f.extension && !env.ffmpeg_ready) = false := by
    cases hvv : is_video_file f.extension
    · simp
    · simp [hv hvv]
  have hp' : (is_pdf_file f.extension && !env.pdfium_ready) = false := by
    cases hpp : is_pdf_file f.extension
    · simp
    · simp [hp hpp]
  unfold load_hover_preview
  rw [hidx]
  simp [hprev, hcache, hload', hv', hp']

/-- C3 amended: a preview request for a previewable, uncached path `P` made
while a load for a different path `Q` is in flight is not dropped and not
queued — it replaces the single slot: a new load for `P` starts with a fresh
channel as receiver, `P` as the loading path and a fresh start time, and the
old load's channel is no longer held by the state. -/
theorem C3_amended_replaces_in_flight (env : Env) (s : AppState) (idx now : Nat)
    (f : FileInfo) (q : String)
    (hidx : s.filtered_files.get? idx = some f)
    (hprev : is_previewable f.extension = true)
    (hcache : s.image_cache f.absolute_path = none)
    (hload : s.image_loading_path = some q)
    (hne : q ≠ f.absolute_path)
    (hv : is_video_file f.extension = true → env.ffmpeg_ready = true)
    (hp : is_pdf_file f.extension = true → env.pdfium_ready = true) :
    load_hover_preview env s idx now
      = { s with
          image_receiver := some s.next_chan
          image_loading_path := some f.absolute_path
          image_loading_start := some now
          next_chan := s.next_chan + 1 } :=
  load_hover_preview_replaces env s idx now f q hidx hprev hcache hload hne hv hp

theorem C3_amended_replaces_in_flight_witness :
    load_hover_preview envBoth sInFlight 0 5
      = { sInFlight with
          image_receiver := some 1
          image_loading_path := some "/r/p.png"
          image_loading_start := some 5
          next_chan := 2 } :=
  C3_amended_replaces_in_flight envBoth sInFlight 0 5 pngFile "/r/q.png"
    rfl rfl rfl rfl (by decide) (by intro h; cases h) (by intro h; cases h)

/-- C4: a request for previewable, uncached `P` while `Q ≠ P` is `Loading`
replaces the slot — the new state holds a fresh receiver channel, `P` as
loading path and a fresh start time; the old channel `cq` differs from the
fresh one, and polling afterwards can only read the fresh channel: while it
is silent the cache is completely unchanged (whatever `Q`'s task delivered on
`cq`), and even when the fresh channel delivers, nothing is ever inserted
under a path other than the delivered one, so `Q`'s abandoned result is never
inserted. -/
theorem C4_replace_ignores_old_result (env : Env) (s : AppState) (idx now : Nat)
    (f : FileInfo) (q : String) (cq : Nat)
    (hidx : s.filtered_files.get? idx = some f)
    (hprev : is_previewable f.extension = true)
    (hcache : s.image_cache f.absolute_path = none)
    (hload : s.image_loading_path = some q)
    (hne : q ≠ f.absolute_path)
    (hv : is_video_file f.extension = true → env.ffmpeg_ready = true)
    (hp : is_pdf_file f.extension = true → env.pdfium_ready = true)
    (_hrecv : s.image_receiver = some cq)
    (hfresh : cq < s.next_chan) :
    (load_hover_preview env s idx now).image_loading_path = some f.absolute_path
    ∧ (load_hover_preview env s idx now).image_receiver = some s.next_chan
    ∧ (load_hover_preview env s idx now).image_loading_start = some now
    ∧ cq ≠ s.next_chan
    ∧ (∀ now2 recv, recv s.next_chan = none →
        (check_image_loads (load_hover_preview env s idx now) now2 recv).image_cache
          = (load_hover_preview env s idx now).image_cache)
    ∧ (∀ now2 recv p d, recv s.next_chan = some (p, d) → p ≠ q →
        (check_image_loads (load_hover_preview env s idx now) now2 recv).image_cache q
          = (load_hover_preview env s idx now).image_cache q) := by
  have hrepl := load_hover_preview_replaces env s idx now f q hidx hprev hcache hload hne hv hp
  rw [hrepl]
  refine ⟨rfl, rfl, rfl, by omega, ?_, ?_⟩
  · intro now2 recv hsilent
    unfold check_image_loads checkRecvPart
    by_cases ht : now2 - now > 10
    · simp [ht]
    · simp [ht, hsilent]
  · intro now2 recv p d hmsg hpq
    unfold check_image_loads checkRecvPart
    by_cases ht : now2 - now > 10
    · simp [ht]
    · have hqp : ¬ q = p := fun hc => hpq hc.symm
      simp [ht, hmsg, cacheInsert, hqp]

theorem C4_replace_ignores_old_result_witness :
    (load_hover_preview envBoth sInFlight 0 5).image_receiver = some 1
    ∧ (0 : Nat) ≠ 1
    ∧ (check_image_loads (load_hover_preview envBoth sInFlight 0 5) 6 recvLate).image_cache
        = (load_hover_preview envBoth sInFlight 0 5).image_cache :=
  ⟨(C4_replace_ignores_old_result envBoth sInFlight 0 5 pngFile "/r/q.png" 0
      rfl rfl rfl rfl (by decide) (by intro h; cases h) (by intro h; cases h)
      rfl (by decide)).2.1,
   (C4_replace_ignores_old_result envBoth sInFlight 0 5 pngFile "/r/q.png" 0
      rfl rfl rfl rfl (by decide) (by intro h; cases h) (by intro h; cases h)
      rfl (by decide)).2.2.2.1,
   (C4_replace_ignores_old_result envBoth sInFlight 0 5 pngFile "/r/q.png" 0
      rfl rfl rfl rfl (by decide) (by intro h; cases h) (by intro h; cases h)
      rfl (by decide)).2.2.2.2.1 6 recvLate rfl⟩

/-- C10: `scan_selected_folder` clears the preview cache and the selection but
leaves the in-flight preview slot untouched (`image_loading_path`,
`image_receiver` and `image_loading_start` keep their values), so a preview
extraction begun before the re-scan still completes afterwards: a poll that
finds its message (within the timeout window) inserts the result into the
freshly cleared cache. -/
theorem C10_rescan_keeps_preview_slot (s : AppState) (now : Nat)
    (recv : Nat → Option (String × ImagePreviewData)) (c : Nat) (p : String)
    (d : ImagePreviewData)
    (hrecv : s.image_receiver = some c)
    (hmsg : recv c = some (p, d))
    (htime : ∀ st, s.image_loading_start = some st → now - st ≤ 10) :
    (scan_selected_folder s).image_loading_path = s.image_loading_path
    ∧ (scan_selected_folder s).image_receiver = s.image_receiver
    ∧ (scan_selected_folder s).image_loading_start = s.image_loading_start
    ∧ (scan_selected_folder s).image_cache = (fun _ => none)
    ∧ (scan_selected_folder s).selected_files = []
    ∧ (check_image_loads (scan_selected_folder s) now recv).image_cache p = some d := by
  have hfields :
      (scan_selected_folder s).image_loading_path = s.image_loading_path
      ∧ (scan_selected_folder s).image_receiver = s.image_receiver
      ∧ (scan_selected_folder s).image_loading_start = s.image_loading_start
      ∧ (scan_selected_folder s).image_cache = (fun _ => none)
      ∧ (scan_selected_folder s).selected_files = [] := by
    unfold scan_selected_folder
    cases s.selected_folder <;> exact ⟨rfl, rfl, rfl, rfl, rfl⟩
  obtain ⟨h1, h2, h3, h4, h5⟩ := hfields
  refine ⟨h1, h2, h3, h4, h5, ?_⟩
  have hrecvPart :
      (checkRecvPart (scan_selected_folder s) recv).image_cache p = some d := by
    unfold checkRecvPart
    rw [h2, hrecv]
    simp [hmsg, cacheInsert]
  unfold check_image_loads
  rw [h3]
  cases hst : s.image_loading_start with
  | none => exact hrecvPart
  | some st =>
    have : ¬ now - st > 10 := by
      have := htime st hst
      omega
    simp only [this, if_neg, ite_false]
    exact hrecvPart

/-- A state mid-load (2 seconds in, receiver on channel 0) with a selected
folder, a populated cache and a selection, about to re-scan. -/
def sMidLoad : AppState :=
  { default_app with
    selected_folder := some "/r"
    selected_files := [0]
    image_cache := fun k => if k = "/r/old.png" then some dPix else none
    image_loading_path := some "/r/p.png"
    image_receiver := some 0
    image_loading_start := some 2
    next_chan := 1 }

/-- The channel environment in which channel 0 delivers `pngFile`'s preview. -/
def recvP : Nat → Option (String × ImagePreviewData) :=
  fun c => if c = 0 then some ("/r/p.png", dPix) else none

theorem C10_rescan_keeps_preview_slot_witness :
    (scan_selected_folder sMidLoad).image_receiver = sMidLoad.image_receiver
    ∧ (scan_selected_folder sMidLoad).image_cache = (fun _ => none)
    ∧ (check_image_loads (scan_selected_folder sMidLoad) 5 recvP).image_cache "/r/p.png"
        = some dPix :=
  ⟨(C10_rescan_keeps_preview_slot sMidLoad 5 recvP 0 "/r/p.png" dPix rfl rfl
      (by intro st hst; simp [sMidLoad, default_app] at hst; omega)).2.1,
   (C10_rescan_keeps_preview_slot sMidLoad 5 recvP 0 "/r/p.png" dPix rfl rfl
      (by intro st hst; simp [sMidLoad, default_app] at hst; omega)).2.2.2.1,
   (C10_rescan_keeps_preview_slot sMidLoad 5 recvP 0 "/r/p.png" dPix rfl rfl
      (by intro st hst; simp [sMidLoad, default_app] at hst; omega)).2.2.2.2.2⟩

theorem bulkDeleteLoop_counts (removeFile : String → Option String)
    (pending : List (String × String)) :
    (bulkDeleteLoop removeFile pending).1
        = pending.countP (fun pn => (removeFile pn.1).isNone)
    ∧ (bulkDeleteLoop removeFile pending).2.1
        = pending.countP (fun pn => (removeFile pn.1).isSome)
    ∧ (bulkDeleteLoop removeFile pending).2.2
        = (pending.filter (fun pn => (removeFile pn.1).isSome)).map
            (fun pn => pn.2 ++ ": " ++ (removeFile pn.1).getD "") := by
  induction pending with
  | nil => simp [bulkDeleteLoop]
  | cons pn rest ih =>
    obtain ⟨path, nm⟩ := pn
    obtain ⟨i1, i2, i3⟩ := ih
    cases hr : removeFile path with
    | none => simp [bulkDeleteLoop, hr, i1, i2, i3]
    | some e => simp [bulkDeleteLoop, hr, i1, i2, i3]

/-- A failing `remove_file` environment: every deletion fails with "gone". -/
def remFail : String → Option String := fun _ => some "gone"

/-- A state with a selected folder and one pending deletion. -/
def sPend : AppState :=
  { default_app with
    selected_folder := some "/root"
    selected_files := [0]
    show_delete_confirm := true
    pending_delete_paths := [("/r/x.png", "x.png")] }

/-- C9 counterexample: after `execute_bulk_delete` on one pending item whose
deletion fails, the state does NOT report "Deleted 0 files, 1 failed" with a
joined error message — `scan_selected_folder`, called last, resets the error
message to `none` and overwrites the status with "Scanning...", so the claim
about the reported status and error message is false at this input. -/
theorem C9_cex :
    (execute_bulk_delete remFail sPend).status_message = "Scanning..."
    ∧ (execute_bulk_delete remFail sPend).status_message ≠ "Deleted 0 files, 1 failed"
    ∧ (execute_bulk_delete remFail sPend).error_message = none := by
  refine ⟨rfl, ?_, rfl⟩
  intro h
  rw [show (execute_bulk_delete remFail sPend).status_message = "Scanning..." from rfl] at h
  simp at h

/-- C9 amended: bulk delete attempts every pending item even when some fail —
the computed outcome counts every success and every failure over the whole
pending list and collects the per-item error strings in order — and it clears
the selection, the pending list and the confirmation flag and triggers a
re-scan; but the trailing re-scan resets the error message to `none` and,
when a folder is selected (the only way a pending list arises), overwrites
the status with "Scanning...", so the "Deleted N files, M failed" report and
the joined error message do not survive the call (the report remains the
final status only in the folderless corner case). -/
theorem C9_amended_bulk_delete (removeFile : String → Option String) (s : AppState) :
    (bulkDeleteLoop removeFile s.pending_delete_paths).1
        = s.pending_delete_paths.countP (fun pn => (removeFile pn.1).isNone)
    ∧ (bulkDeleteLoop removeFile s.pending_delete_paths).2.1
        = s.pending_delete_paths.countP (fun pn => (removeFile pn.1).isSome)
    ∧ (bulkDeleteLoop removeFile s.pending_delete_paths).2.2
        = (s.pending_delete_paths.filter (fun pn => (removeFile pn.1).isSome)).map
            (fun pn => pn.2 ++ ": " ++ (removeFile pn.1).getD "")
    ∧ (execute_bulk_delete removeFile s).pending_delete_paths = []
    ∧ (execute_bulk_delete removeFile s).selected_files = []
    ∧ (execute_bulk_delete removeFile s).show_delete_confirm = false
    ∧ (execute_bulk_delete removeFile s).error_message = none
    ∧ (execute_bulk_delete removeFile s).status_message
        = (if s.selected_folder.isSome then "Scanning..."
           else if (bulkDeleteLoop removeFile s.pending_delete_paths).2.1 = 0 then
             "Deleted " ++ toString (bulkDeleteLoop removeFile s.pending_delete_paths).1
               ++ " files"
           else
             "Deleted " ++ toString (bulkDeleteLoop removeFile s.pending_delete_paths).1
               ++ " files, "
               ++ toString (bulkDeleteLoop removeFile s.pending_delete_paths).2.1
               ++ " failed")
    ∧ (s.selected_folder.isSome = true →
        (execute_bulk_delete removeFile s).is_scanning = true
        ∧ (execute_bulk_delete removeFile s).scan_receiver = some s.next_chan) := by
  obtain ⟨c1, c2, c3⟩ := bulkDeleteLoop_counts removeFile s.pending_delete_paths
  refine ⟨c1, c2, c3, ?_, ?_, ?_, ?_, ?_, ?_⟩ <;>
  · unfold execute_bulk_delete
    by_cases hm : (bulkDeleteLoop removeFile s.pending_delete_paths).2.1 = 0 <;>
      cases hsel : s.selected_folder <;>
        simp [scan_selected_folder, hm, hsel]

theorem C9_amended_bulk_delete_witness :
    (bulkDeleteLoop remFail sPend.pending_delete_paths).2.1
        = sPend.pending_delete_paths.countP (fun pn => (remFail pn.1).isSome)
    ∧ (execute_bulk_delete remFail sPend).pending_delete_paths = []
    ∧ (execute_bulk_delete remFail sPend).is_scanning = true :=
  ⟨(C9_amended_bulk_delete remFail sPend).2.1,
   (C9_amended_bulk_delete remFail sPend).2.2.2.1,
   ((C9_amended_bulk_delete remFail sPend).2.2.2.2.2.2.2.2 rfl).1⟩

/-- A record whose timestamp 85400 is 23:43:20 UTC on day 0 — inside the
first local day of a UTC+1 process once the clock reads 86500. -/
def lateFile : FileInfo :=
  ⟨"t", "png", "t.png", "t.png", "/r/t.png", 1, 85400⟩

/-- A snapshot of `lateFile` with the today-only filter enabled. -/
def sToday : AppState :=
  { default_app with
    files := [lateFile]
    show_today_only := true }

/-- C2 counterexample: at wall clock 86500 (00:01:40 UTC of day 1, 01:01:40
local time for a UTC+1 process, i.e. `tzOffset = 3600`), the record with
`modified_timestamp 85400` lies inside the process's local day
`[82800, 169200)` — so the claim keeps it — yet `is_today` is false and the
today filter drops it: the boundary the code uses is the epoch-aligned (UTC)
midnight `86400`, not the process's local midnight. -/
theorem C2_cex :
    specTodayKeep 85400 86500 3600 = true
    ∧ is_today 85400 86500 = false
    ∧ (apply_filter 86500 sToday).filtered_files = [] := by
  refine ⟨by decide, by decide, by decide⟩

/-- C2 amended: when the today-only filter is enabled, a record (among those
surviving the text and duplicate stages) is kept iff its
`modified_timestamp`, cast to `u64` (reduced modulo `2^64`), lies in
`[start_of_day, start_of_day + 86400)` where
`start_of_day = now - now % 86400` is computed from the wall-clock seconds
since the Unix epoch — the epoch-aligned (UTC) day boundary, independent of
the process's local time zone. -/
theorem C2_amended_today_filter (nowSecs : Nat) (s : AppState) (f : FileInfo)
    (h : s.show_today_only = true) :
    f ∈ (apply_filter nowSecs s).filtered_files ↔
      (f ∈ dupFiltered s
        ∧ nowSecs - nowSecs % 86400
            ≤ (f.modified_timestamp % (18446744073709551616 : Int)).toNat
        ∧ (f.modified_timestamp % (18446744073709551616 : Int)).toNat
            < nowSecs - nowSecs % 86400 + 86400) := by
  simp [apply_filter, h, is_today, List.mem_filter, and_assoc]

/-- A record inside the UTC day window at wall clock 86500. -/
def utcTodayFile : FileInfo :=
  ⟨"u", "png", "u.png", "u.png", "/r/u.png", 1, 86450⟩

/-- A snapshot of `utcTodayFile` with the today-only filter enabled. -/
def sUtcToday : AppState :=
  { default_app with
    files := [utcTodayFile]
    show_today_only := true }

theorem C2_amended_today_filter_witness :
    utcTodayFile ∈ (apply_filter 86500 sUtcToday).filtered_files ↔
      (utcTodayFile ∈ dupFiltered sUtcToday
        ∧ 86500 - 86500 % 86400
            ≤ (utcTodayFile.modified_timestamp % (18446744073709551616 : Int)).toNat
        ∧ (utcTodayFile.modified_timestamp % (18446744073709551616 : Int)).toNat
            < 86500 - 86500 % 86400 + 86400) :=
  C2_amended_today_filter 86500 sUtcToday utcTodayFile rfl

theorem scan_internal_isOk (basePath relDir : String) (recursive : Bool)
    (cs : List (String × Node)) :
    exceptOk (scan_folder_internal basePath relDir recursive cs)
      = !dirReadFails recursive cs := by
  induction relDir, recursive, cs using scan_folder_internal.induct basePath with
  | case1 r rec => simp [scan_folder_internal, dirReadFails, exceptOk]
  | case2 r rec n meta rest e hres ih =>
    rw [hres] at ih
    simp only [scan_folder_internal, hres, dirReadFails]
    simpa [exceptOk] using ih
  | case3 r rec n meta rest rs hres ih =>
    rw [hres] at ih
    simp only [scan_folder_internal, hres, dirReadFails]
    simpa [exceptOk] using ih
  | case4 r nm rest => simp [scan_folder_internal, dirReadFails, exceptOk]
  | case5 r rec nm rest hrec ih =>
    have hrec' : rec = false := by simpa using hrec
    subst hrec'
    simpa [scan_folder_internal, dirReadFails] using ih
  | case6 r n sub rest e hsub ihSub =>
    rw [hsub] at ihSub
    simp only [scan_folder_internal, hsub, dirReadFails]
    simp only [exceptOk] at ihSub ⊢
    simp [← ihSub]
  | case7 r n sub rest rs e hsub hrest ihSub ihRest =>
    rw [hsub] at ihSub
    rw [hrest] at ihRest
    simp only [scan_folder_internal, hsub, hrest, dirReadFails]
    simp only [exceptOk] at ihSub ihRest ⊢
    simp [← ihSub, ← ihRest]
  | case8 r n sub rest rs rs2 hsub hrest ihSub ihRest =>
    rw [hsub] at ihSub
    rw [hrest] at ihRest
    simp only [scan_folder_internal, hsub, hrest, dirReadFails]
    simp only [exceptOk] at ihSub ihRest ⊢
    simp [← ihSub, ← ihRest]
  | case9 r rec n sub rest hrec ih =>
    have hrec' : rec = false := by simpa using hrec
    subst hrec'
    simpa [scan_folder_internal, dirReadFails] using ih

theorem mem_scan_internal (basePath relDir : String) (recursive : Bool)
    (cs : List (String × Node)) (n : String) (meta : Option (Nat × Int))
    (l : List FileInfo)
    (hmem : (n, Node.file meta) ∈ cs)
    (hok : scan_folder_internal basePath relDir recursive cs = .ok l) :
    mkFileInfo basePath relDir n meta ∈ l := by
  induction cs generalizing l with
  | nil => cases hmem
  | cons hd rest ih =>
    cases hmem with
    | head =>
      simp only [scan_folder_internal] at hok
      cases h : scan_folder_internal basePath relDir recursive rest with
      | error e => rw [h] at hok; cases hok
      | ok rs =>
        rw [h] at hok
        injection hok with hl
        rw [← hl]
        exact List.mem_cons_self _ _
    | tail hd2 htail =>
      obtain ⟨m, node⟩ := hd
      cases node with
      | file meta2 =>
        simp only [scan_folder_internal] at hok
        cases h : scan_folder_internal basePath relDir recursive rest with
        | error e => rw [h] at hok; cases hok
        | ok rs =>
          rw [h] at hok
          injection hok with hl
          rw [← hl]
          exact List.mem_cons_of_mem _ (ih rs htail h)
      | dir contents =>
        cases contents with
        | none =>
          simp only [scan_folder_internal] at hok
          cases recursive with
          | true => simp at hok
          | false => exact ih l htail (by simpa using hok)
        | some sub =>
          simp only [scan_folder_internal] at hok
          cases recursive with
          | false => exact ih l htail (by simpa using hok)
          | true =>
            simp only [reduceIte] at hok
            cases hs : scan_folder_internal basePath (joinPath relDir m) true sub with
            | error e => rw [hs] at hok; cases hok
            | ok subRs =>
              rw [hs] at hok
              cases hr : scan_folder_internal basePath relDir true rest with
              | error e => rw [hr] at hok; cases hok
              | ok rs =>
                rw [hr] at hok
                injection hok with hl
                rw [← hl]
                exact List.mem_append_right _ (ih rs htail hr)

/-- C6: the directory walk returns an error — and by the shape of the result
no partial file list — exactly when the root is not a directory or one of the
directory reads the walk performs fails; and a file entry whose metadata call
failed does not fail the walk but contributes a record with `file_size = 0`
and `modified_timestamp = 0`. -/
theorem C6_scan_error_contract (basePath : String) (root : Node) (recursive : Bool)
    (cs : List (String × Node)) (n : String) (l : List FileInfo) :
    (exceptOk (scan_folder basePath root recursive)
        = (rootIsDir root && !rootReadFails recursive root))
    ∧ ((n, Node.file none) ∈ cs →
        scan_folder basePath (Node.dir (some cs)) recursive = .ok l →
        ∃ r ∈ l, r.full_name = n ∧ r.file_size = 0 ∧ r.modified_timestamp = 0) := by
  constructor
  · cases root with
    | file meta => simp [scan_folder, exceptOk, rootIsDir]
    | dir contents =>
      cases contents with
      | none => simp [scan_folder, exceptOk, rootIsDir, rootReadFails]
      | some cs' =>
        rw [scan_folder]
        cases h : scan_folder_internal basePath "" recursive cs' with
        | error e =>
          have := scan_internal_isOk basePath "" recursive cs'
          rw [h] at this
          simp [exceptOk, rootIsDir, rootReadFails, ← this]
        | ok files =>
          have := scan_internal_isOk basePath "" recursive cs'
          rw [h] at this
          simp [exceptOk, rootIsDir, rootReadFails, ← this]
  · intro hmem hok
    rw [scan_folder] at hok
    cases h : scan_folder_internal basePath "" recursive cs with
    | error e => rw [h] at hok; cases hok
    | ok files =>
      rw [h] at hok
      injection hok with hl
      have hmemf : mkFileInfo basePath "" n none ∈ files :=
        mem_scan_internal basePath "" recursive cs n none files hmem h
      have hperm := List.perm_insertionSort relPathLe files
      refine ⟨mkFileInfo basePath "" n none, ?_, rfl, rfl, rfl⟩
      rw [← hl]
      exact hperm.mem_iff.mpr hmemf

theorem C6_scan_error_contract_witness :
    ∃ r ∈ [mkFileInfo "/b" "" "a.txt" none],
      r.full_name = "a.txt" ∧ r.file_size = 0 ∧ r.modified_timestamp = 0 :=
  (C6_scan_error_contract "/b" (Node.dir (some [("a.txt", Node.file none)])) false
      [("a.txt", Node.file none)] "a.txt" [mkFileInfo "/b" "" "a.txt" none]).2
    (by simp)
    (by simp [scan_folder, scan_folder_internal, List.insertionSort])


theorem parseQuotedAux_rt (f : List Char) (rest acc : List Char)
    (h : rest.head? ≠ some '"') :
    parseQuotedAux (escapeQuotes f ++ '"' :: rest) acc = (acc.reverse ++ f, rest) := by
  induction f generalizing acc with
  | nil =>
    cases rest with
    | nil => simp [escapeQuotes, parseQuotedAux]
    | cons d ds =>
      have hd : ¬ d = '"' := by simpa using h
      simp [escapeQuotes, parseQuotedAux, hd]
  | cons a t ih =>
    by_cases ha : a = '"'
    · subst ha
      simp only [escapeQuotes, if_pos rfl, List.cons_append]
      simp only [parseQuotedAux, reduceIte, List.append_eq]
      rw [ih]
      simp
    · rcases he : escapeQuotes t ++ '"' :: rest with _ | ⟨d, ds⟩
      · exact absurd he (by simp)
      · simp only [escapeQuotes, if_neg ha, List.cons_append, he]
        simp only [parseQuotedAux, if_neg ha]
        rw [← he, ih]
        simp

theorem parseUnquoted_rt (f rest : List Char)
    (hf : ∀ c ∈ f, ¬ c = ',' ∧ ¬ c = '\n')
    (hrest : ∀ c cs, rest = c :: cs → (c = ',' ∨ c = '\n')) :
    parseUnquoted (f ++ rest) = (f, rest) := by
  induction f with
  | nil =>
    cases rest with
    | nil => simp [parseUnquoted]
    | cons d ds =>
      rcases hrest d ds rfl with hd | hd <;> simp [parseUnquoted, hd]
  | cons a t ih =>
    obtain ⟨ha1, ha2⟩ := hf a (List.mem_cons_self a t)
    have ht : ∀ c ∈ t, ¬ c = ',' ∧ ¬ c = '\n' :=
      fun c hc => hf c (List.mem_cons_of_mem _ hc)
    simp [parseUnquoted, ha1, ha2, ih ht]

theorem needsQuote_false_mem (f : List Char) (hq : needsQuote f = false) :
    ∀ c ∈ f, ¬ c = '"' ∧ ¬ c = ',' ∧ ¬ c = '\n' ∧ ¬ c = '\r' := by
  intro c hc
  have := List.any_eq_false.mp hq c hc
  simp only [Bool.or_eq_true, decide_eq_true_eq, not_or] at this
  tauto

theorem parseField_rt (f : List Char) (d : Char) (rest : List Char)
    (hd : d = ',' ∨ d = '\n') :
    parseField (writeField f ++ d :: rest) = (f, d :: rest) := by
  have hdq : ¬ d = '"' := by rcases hd with h | h <;> simp [h]
  by_cases hq : needsQuote f
  · simp only [writeField, if_pos hq, List.cons_append]
    rw [show (escapeQuotes f ++ ['"']) ++ d :: rest
        = escapeQuotes f ++ '"' :: d :: rest by simp]
    simp only [parseField, reduceIte]
    rw [parseQuotedAux_rt f (d :: rest) [] (by simpa using hdq)]
    simp
  · have hq' : needsQuote f = false := by simpa using hq
    have hmem := needsQuote_false_mem f hq'
    simp only [writeField, if_neg hq]
    cases f with
    | nil =>
      simp only [List.nil_append, parseField, if_neg hdq]
      rcases hd with h | h <;> simp [parseUnquoted, h]
    | cons a t =>
      have ha : ¬ a = '"' := (hmem a (List.mem_cons_self a t)).1
      simp only [List.cons_append, parseField, if_neg ha]
      rw [show a :: (t ++ d :: rest) = (a :: t) ++ d :: rest by simp]
      exact parseUnquoted_rt (a :: t) (d :: rest)
        (fun c hc => ⟨(hmem c hc).2.1, (hmem c hc).2.2.1⟩)
        (fun c cs hcs => by injection hcs with h1 _; rw [← h1]; exact hd)

theorem parseLineF_rt (fields : List (List Char)) (rest : List Char) (fuel : Nat)
    (hne : fields ≠ [])
    (hfuel : fields.length ≤ fuel) :
    parseLineF fuel (writeRecordChars fields ++ rest) = (fields, rest) := by
  induction fields generalizing fuel rest with
  | nil => exact absurd rfl hne
  | cons f t ih =>
    obtain ⟨k, rfl⟩ : ∃ k, fuel = k + 1 := ⟨fuel - 1, by simp at hfuel; omega⟩
    cases t with
    | nil =>
      rw [show writeRecordChars [f] ++ rest = writeField f ++ '\n' :: rest by
        simp [writeRecordChars, joinFields]]
      simp only [parseLineF]
      rw [parseField_rt f '\n' rest (Or.inr rfl)]
      simp
    | cons g gs =>
      rw [show writeRecordChars (f :: g :: gs) ++ rest
          = writeField f ++ ',' :: (writeRecordChars (g :: gs) ++ rest) by
        simp [writeRecordChars, joinFields]]
      simp only [parseLineF]
      rw [parseField_rt f ',' (writeRecordChars (g :: gs) ++ rest) (Or.inl rfl)]
      simp only []
      rw [ih rest k (by simp) (by simp at hfuel ⊢; omega)]

theorem joinFields_length (r : List (List Char)) :
    r.length ≤ (joinFields r).length + 1 := by
  induction r with
  | nil => simp
  | cons f t ih =>
    cases t with
    | nil => simp [joinFields]
    | cons g gs =>
      simp only [joinFields, List.length_append, List.length_cons] at ih ⊢
      omega

theorem writeRecordChars_length (r : List (List Char)) :
    r.length ≤ (writeRecordChars r).length := by
  have := joinFields_length r
  simp only [writeRecordChars, List.length_append, List.length_cons, List.length_nil]
  omega

theorem writeAllRecords_length (recs : List (List (List Char))) :
    recs.length ≤ (writeAllRecords recs).length := by
  induction recs with
  | nil => simp [writeAllRecords]
  | cons r rs ih =>
    have h1 : 1 ≤ (writeRecordChars r).length := by
      simp [writeRecordChars]
    simp only [writeAllRecords, List.map_cons, List.flatten_cons, List.length_append,
      List.length_cons] at ih ⊢
    omega

theorem parseRecsF_rt (recs : List (List (List Char))) (fuel : Nat)
    (hne : ∀ r ∈ recs, r ≠ [])
    (hfuel : recs.length ≤ fuel) :
    parseRecsF fuel (writeAllRecords recs) = recs := by
  induction recs generalizing fuel with
  | nil =>
    cases fuel with
    | zero => simp [parseRecsF, writeAllRecords]
    | succ k => simp [parseRecsF, writeAllRecords]
  | cons r rs ih =>
    obtain ⟨k, rfl⟩ : ∃ k, fuel = k + 1 := ⟨fuel - 1, by simp at hfuel; omega⟩
    have hsh : writeAllRecords (r :: rs) = writeRecordChars r ++ writeAllRecords rs := by
      simp [writeAllRecords]
    rcases hL : writeAllRecords (r :: rs) with _ | ⟨c, cs⟩
    · exfalso
      rw [hsh] at hL
      have : (writeRecordChars r ++ writeAllRecords rs).length = 0 := by rw [hL]; simp
      simp [writeRecordChars] at this
    · have hline : parseLineF ((c :: cs).length + 1) (c :: cs) = (r, writeAllRecords rs) := by
        rw [← hL, hsh]
        refine parseLineF_rt r (writeAllRecords rs) _ (hne r (by simp)) ?_
        have h1 := writeRecordChars_length r
        simp only [List.length_append]
        omega
      simp only [parseRecsF, hline]
      rw [ih k (fun x hx => hne x (List.mem_cons_of_mem _ hx))
        (by simp at hfuel ⊢; omega)]

/-- C7: exporting any list of visible records writes the UTF-8 BOM, then the
header row `File Name, Extension, Size (bytes), Relative Path, Full Path`,
then exactly one row per record in order; and re-reading the produced stream
with a standard CSV+BOM reader yields exactly the header followed by the
`(name, extension, size, relative_path, absolute_path)` tuples of the
exported records, in the same order. -/
theorem C7_csv_roundtrip (files : List FileInfo) :
    export_to_csv files = '﻿' :: writeAllRecords (csvHeader :: files.map csvRecordOf)
    ∧ readCsvBom (export_to_csv files) = csvHeader :: files.map csvRecordOf := by
  have hexp : export_to_csv files
      = '﻿' :: writeAllRecords (csvHeader :: files.map csvRecordOf) := by
    simp only [export_to_csv, writeAllRecords, List.map_cons, List.flatten_cons,
      List.map_map]
    rfl
  refine ⟨hexp, ?_⟩
  rw [hexp]
  have hstrip : readCsvBom ('﻿' :: writeAllRecords (csvHeader :: files.map csvRecordOf))
      = parseCsv (writeAllRecords (csvHeader :: files.map csvRecordOf)) := rfl
  rw [hstrip]
  simp only [parseCsv]
  refine parseRecsF_rt _ _ ?_ ?_
  · intro r hr
    rcases List.mem_cons.mp hr with rfl | hr2
    · simp [csvHeader]
    · obtain ⟨f, _, rfl⟩ := List.mem_map.mp hr2
      simp [csvRecordOf]
  · have := writeAllRecords_length (csvHeader :: files.map csvRecordOf)
    omega
